import Mathlib

/-!
Shallow embedding of the convergence-analysis engine of
`scripts/analyze_convergence.py` (Well-Tempered Metadynamics post-processing),
together with theorems settling the specification claims about it.

Modelling conventions:
* All floating-point quantities are modelled exactly over `ℚ`.
* Standard deviations / standard errors are carried as their squares
  (variances), since square roots leave `ℚ`; `np.std(x) < c` for `c ≥ 0`
  is equivalently `popVar x < c ^ 2`.
* `np.mean` / `np.std` on a list are `listMean` / `popVar` (numpy's default
  `ddof = 0`, i.e. the uncorrected mean-of-squared-deviations formula).
* `np.max` / `np.min` of a non-empty slice are `listMax` / `listMin`
  (given the junk value 0 on `[]`, where numpy would raise; call sites in
  the embedded code only reach them with non-empty slices).
-/

namespace MetadAnalysis

/-- Arithmetic mean of a list of rationals (`np.mean`). On `[]` this is
`0 / 0 = 0` in `ℚ`; claims only use non-empty series. -/
def listMean (l : List ℚ) : ℚ := l.sum / l.length

/-- Population variance (`np.std(x) ^ 2` with numpy's default `ddof = 0`):
mean of squared deviations from the mean. -/
def popVar (l : List ℚ) : ℚ :=
  ((l.map (fun x => (x - listMean l) ^ 2)).sum) / l.length

/-- Maximum of a list (`np.max`); 0 on `[]` (numpy raises there; unreachable
at the embedded call sites). -/
def listMax : List ℚ → ℚ
  | [] => 0
  | x :: xs => xs.foldl max x

/-- Minimum of a list (`np.min`); 0 on `[]`. -/
def listMin : List ℚ → ℚ
  | [] => 0
  | x :: xs => xs.foldl min x

/-- Result triple of `block_averaging`: the reported mean, the square of the
reported standard error (kept squared to stay in `ℚ`), and the per-block
means (`block_means.tolist()`). -/
structure BlockStat where
  mean : ℚ
  seSq : ℚ
  blockMeans : List ℚ
deriving Repr, DecidableEq

/-- Embedding of `block_averaging(data, n_blocks)` (analyze_convergence.py,
lines 238–265). `block_size = len(data) // n_blocks`; if it is zero, the
degenerate triple `(np.mean(data), np.std(data), [np.mean(data)])` is
returned (the `seSq` field holds the square of the returned standard
deviation). Otherwise block `i` is `data[i*block_size : (i+1)*block_size]`,
and the reported standard error is `np.std(block_means) / sqrt(n_blocks)`,
held squared as `popVar blockMeans / n_blocks`. -/
def block_averaging (data : List ℚ) (nBlocks : ℕ) : BlockStat :=
  let blockSize := data.length / nBlocks
  if blockSize = 0 then
    ⟨listMean data, popVar data, [listMean data]⟩
  else
    let blockMeans := (List.range nBlocks).map
      (fun i => listMean ((data.drop (i * blockSize)).take blockSize))
    ⟨listMean blockMeans, popVar blockMeans / nBlocks, blockMeans⟩

/-- Helper: equal `m`-prefixes give equal slices `[k, k+s)` whenever the slice
lies inside the prefix. -/
theorem slice_eq_of_take_eq (d d' : List ℚ) (m k s : ℕ)
    (h : d.take m = d'.take m) (hks : k + s ≤ m) :
    (d.drop k).take s = (d'.drop k).take s := by
  have h1 : (d.take m).drop k = (d'.take m).drop k := by rw [h]
  rw [List.drop_take, List.drop_take] at h1
  have hsm : s ≤ m - k := by omega
  calc (d.drop k).take s
      = ((d.drop k).take (m - k)).take s := by
        rw [List.take_take, Nat.min_eq_left hsm]
    _ = ((d'.drop k).take (m - k)).take s := by rw [h1]
    _ = (d'.drop k).take s := by rw [List.take_take, Nat.min_eq_left hsm]

/-- C6: block averaging, degenerate case — for a non-empty series strictly
shorter than the requested block count `B` (so `len // B = 0`), the result is
exactly (series mean, series standard deviation, [series mean]); the middle
field carries the square of the returned standard deviation. -/
theorem c6_blockAveraging_degenerate (data : List ℚ) (B : ℕ)
    (hne : data ≠ []) (hlt : data.length < B) :
    block_averaging data B = ⟨listMean data, popVar data, [listMean data]⟩ := by
  unfold block_averaging
  simp [Nat.div_eq_of_lt hlt]

/-- Witness for C6 at the spec's own example shape: 3 elements, `B = 5`. -/
theorem c6_blockAveraging_degenerate_witness :
    block_averaging [1, 2, 3] 5 =
      ⟨listMean [1, 2, 3], popVar [1, 2, 3], [listMean [1, 2, 3]]⟩ :=
  c6_blockAveraging_degenerate [1, 2, 3] 5 (by with_unfolding_all decide) (by decide)

/-- C4: block averaging, non-degenerate case — for `0 < B ≤ len(data)` the
block-means list has exactly `B` entries, entry `i` is the mean of the `i`-th
contiguous run of `len(data) // B` elements, the reported mean is exactly the
mean of the block means, and the reported standard error is the standard
deviation across the block means (numpy's uncorrected formula, stated via its
square `popVar`) divided by `√B` (stated squared: `seSq = popVar / B`). -/
theorem c4_blockAveraging_nondegenerate (data : List ℚ) (B : ℕ)
    (hB : 0 < B) (hle : B ≤ data.length) :
    (block_averaging data B).blockMeans.length = B ∧
    (∀ i, i < B → (block_averaging data B).blockMeans[i]? =
        some (listMean
          ((data.drop (i * (data.length / B))).take (data.length / B)))) ∧
    (block_averaging data B).mean = listMean (block_averaging data B).blockMeans ∧
    (block_averaging data B).seSq =
      popVar (block_averaging data B).blockMeans / B := by
  have hbs : ¬ data.length / B = 0 := by
    have h1 : 1 ≤ data.length / B := (Nat.one_le_div_iff hB).mpr hle
    omega
  have hmk : block_averaging data B =
      ⟨listMean ((List.range B).map
          (fun i => listMean ((data.drop (i * (data.length / B))).take (data.length / B)))),
        popVar ((List.range B).map
          (fun i => listMean ((data.drop (i * (data.length / B))).take (data.length / B)))) / B,
        (List.range B).map
          (fun i => listMean ((data.drop (i * (data.length / B))).take (data.length / B)))⟩ := by
    unfold block_averaging
    simp only [hbs, if_false]
  rw [hmk]
  refine ⟨by simp, fun i hi => ?_, rfl, rfl⟩
  rw [List.getElem?_map, List.getElem?_range hi]
  rfl

/-- Witness for C4 at `data = [1, 2, 3, 4, 5]`, `B = 2` (block size 2, the
trailing element dropped). -/
theorem c4_blockAveraging_nondegenerate_witness :
    (block_averaging [1, 2, 3, 4, 5] 2).blockMeans.length = 2 ∧
    (∀ i, i < 2 → (block_averaging [1, 2, 3, 4, 5] 2).blockMeans[i]? =
        some (listMean
          ((([1, 2, 3, 4, 5] : List ℚ).drop (i * (([1, 2, 3, 4, 5] : List ℚ).length / 2))).take
            (([1, 2, 3, 4, 5] : List ℚ).length / 2)))) ∧
    (block_averaging [1, 2, 3, 4, 5] 2).mean =
      listMean (block_averaging [1, 2, 3, 4, 5] 2).blockMeans ∧
    (block_averaging [1, 2, 3, 4, 5] 2).seSq =
      popVar (block_averaging [1, 2, 3, 4, 5] 2).blockMeans / 2 :=
  c4_blockAveraging_nondegenerate [1, 2, 3, 4, 5] 2 (by decide) (by decide)

/-- C10: when `B` does not evenly divide the length (and in general for
`0 < B ≤ len`), only the first `B * (len // B)` elements enter the blocks, so
the whole result is invariant under any change to the trailing
`len − B * (len // B)` elements; moreover the reported mean can differ from
the plain series mean (second conjunct, at series `[0, 0, 3]` with `B = 2`). -/
theorem c10_blockAveraging_ignores_trailing :
    (∀ (d d' : List ℚ) (B : ℕ), 0 < B → B ≤ d.length →
        d.length = d'.length →
        d.take (B * (d.length / B)) = d'.take (B * (d.length / B)) →
        block_averaging d B = block_averaging d' B) ∧
    (block_averaging [0, 0, 3] 2).mean ≠ listMean [0, 0, 3] := by
  constructor
  · intro d d' B hB hle hlen htake
    have hbs : ¬ d.length / B = 0 := by
      have h1 : 1 ≤ d.length / B := (Nat.one_le_div_iff hB).mpr hle
      omega
    have hmeans : (List.range B).map
          (fun i => listMean ((d.drop (i * (d.length / B))).take (d.length / B))) =
        (List.range B).map
          (fun i => listMean ((d'.drop (i * (d.length / B))).take (d.length / B))) := by
      refine List.map_congr_left (fun i hi => ?_)
      have hiB : i < B := List.mem_range.mp hi
      have hsub : i * (d.length / B) + d.length / B ≤ B * (d.length / B) := by
        have : (i + 1) * (d.length / B) ≤ B * (d.length / B) :=
          Nat.mul_le_mul_right _ hiB
        calc i * (d.length / B) + d.length / B
            = (i + 1) * (d.length / B) := by ring
          _ ≤ B * (d.length / B) := this
      rw [slice_eq_of_take_eq d d' (B * (d.length / B)) _ _ htake hsub]
    unfold block_averaging
    rw [← hlen]
    simp only [hbs, if_false, hmeans]
  · with_unfolding_all decide

/-- Witness for C10: changing the dropped trailing element (3 ↦ 9) leaves the
whole block-averaging result unchanged. -/
theorem c10_blockAveraging_ignores_trailing_witness :
    block_averaging [0, 0, 3] 2 = block_averaging [0, 0, 9] 2 :=
  c10_blockAveraging_ignores_trailing.1 [0, 0, 3] [0, 0, 9] 2
    (by decide) (by decide) (by decide) (by with_unfolding_all decide)

/-- A whitespace token of an input line: either one that `float(x)` parses
(carrying its value) or one on which `float(x)` raises `ValueError`. -/
inductive Token where
  | num (q : ℚ)
  | bad
deriving Repr, DecidableEq

/-- A physical line of a PLUMED-style text file, as seen by
`load_plumed_file` after `line.strip()`: empty, starting with the comment
marker `#`, starting with the metadata marker `@`, or a data line made of
whitespace-separated tokens. -/
inductive Line where
  | blank
  | comment
  | metadata
  | data (toks : List Token)
deriving Repr, DecidableEq

/-- Value of a token, `none` when `float(x)` raises. -/
def tokVal : Token → Option ℚ
  | .num q => some q
  | .bad => none

/-- The list comprehension `[float(x) for x in line.split()]`: all values when
every token parses, `none` (a raised `ValueError`) as soon as one fails. -/
def parseToks : List Token → Option (List ℚ)
  | [] => some []
  | t :: ts =>
    match tokVal t with
    | none => none
    | some q =>
      match parseToks ts with
      | none => none
      | some r => some (q :: r)

/-- Per-line behaviour of `load_plumed_file` (lines 36–44): skipped lines give
`none`; a data line gives its parsed row when every token parses, and `none`
(the line is silently discarded by the `except ValueError: continue`) when any
token fails. -/
def parseLine : Line → Option (List ℚ)
  | .data toks => parseToks toks
  | _ => none

/-- Spec-side predicate, from the claim's words: a non-empty, non-comment,
non-metadata line all of whose tokens parse as floats. -/
def isDataNumeric : Line → Bool
  | .data toks => toks.all (fun t => (tokVal t).isSome)
  | _ => false

/-- Spec-side count of fully-numeric-parseable lines of a file. -/
def countParseable (ls : List Line) : ℕ := (ls.filter isDataNumeric).length

/-- Failure modes of `load_plumed_file`: `missingData` is the
`sys.exit(1)` taken when zero rows were collected (a `SystemExit`, i.e. a
`BaseException` that `except Exception` does NOT catch); `raggedArray` is the
`ValueError` that `np.array(data)` raises on rows of unequal length
(NumPy ≥ 1.24 rejects inhomogeneous nested lists). -/
inductive LoadErr where
  | missingData
  | raggedArray
deriving Repr, DecidableEq

/-- All rows have the column count of the first row (the shape `np.array`
accepts). -/
def rowsUniform (rows : List (List ℚ)) : Bool :=
  rows.all (fun r => r.length = (rows.headI).length)

/-- Embedding of `load_plumed_file(filepath)` (analyze_convergence.py, lines
28–50), over the file's line list: collect the parseable rows, exit fatally
when none were collected, and otherwise return `np.array(data)` — which
yields the table when the rows are rectangular and raises `ValueError`
(`raggedArray`) when they are not. -/
def load_plumed_file (ls : List Line) : Except LoadErr (List (List ℚ)) :=
  let rows := ls.filterMap parseLine
  if rows.isEmpty then .error .missingData
  else if rowsUniform rows then .ok rows else .error .raggedArray

/-- Helper: token-list parsing succeeds exactly when every token parses. -/
theorem parseToks_isSome (toks : List Token) :
    (parseToks toks).isSome = toks.all (fun t => (tokVal t).isSome) := by
  induction toks with
  | nil => rfl
  | cons t ts ih =>
    cases ht : tokVal t with
    | none => simp [parseToks, ht]
    | some q =>
      cases hts : parseToks ts with
      | none => simp [parseToks, ht, hts, ← ih]
      | some r => simp [parseToks, ht, hts, ← ih]

/-- Helper: a data line parses to a row exactly when it is fully numeric. -/
theorem parseLine_isSome_iff (l : Line) :
    (parseLine l).isSome = isDataNumeric l := by
  cases l with
  | data toks => exact parseToks_isSome toks
  | blank => rfl
  | comment => rfl
  | metadata => rfl

/-- Helper: the number of collected rows equals the spec-side count of
fully-numeric lines. -/
theorem length_collected_rows (ls : List Line) :
    (ls.filterMap parseLine).length = countParseable ls := by
  unfold countParseable
  induction ls with
  | nil => rfl
  | cons l ls ih =>
    by_cases h : isDataNumeric l
    · have hsome : (parseLine l).isSome := by rw [parseLine_isSome_iff, h]
      obtain ⟨r, hr⟩ := Option.isSome_iff_exists.mp hsome
      simp [List.filterMap_cons, hr, List.filter_cons, h, ih]
    · have hfalse : isDataNumeric l = false := Bool.eq_false_iff.mpr h
      have hnone : parseLine l = none := by
        have h2 : (parseLine l).isSome = false := by
          rw [parseLine_isSome_iff, hfalse]
        exact Option.not_isSome_iff_eq_none.mp (by simp [h2])
      simp [List.filterMap_cons, hnone, List.filter_cons, h, ih]

/-- C3 (amended): the loader fails with the fatal `MissingDataError`
(`sys.exit(1)`) if and only if zero data rows were collected (equivalently,
the file has zero fully-numeric-parseable lines); whenever it returns a
table, that table's row count equals exactly the number of non-comment,
non-metadata, fully-numeric-parseable lines; and the remaining failure mode,
`raggedArray`, occurs only when the collected rows do not all share one
column count (on which `np.array` raises, so no table is returned even
though more than zero rows were collected). -/
theorem c3_load_plumed_file_contract (ls : List Line) :
    (load_plumed_file ls = .error .missingData ↔ countParseable ls = 0) ∧
    (∀ t, load_plumed_file ls = .ok t → t.length = countParseable ls) ∧
    (load_plumed_file ls = .error .raggedArray →
      rowsUniform (ls.filterMap parseLine) = false ∧ countParseable ls ≠ 0) := by
  unfold load_plumed_file
  by_cases hemp : (ls.filterMap parseLine).isEmpty
  · have hc : countParseable ls = 0 := by
      rw [← length_collected_rows, List.length_eq_zero]
      exact List.isEmpty_iff.mp hemp
    simp [hemp, hc]
  · have hc : countParseable ls ≠ 0 := by
      rw [← length_collected_rows]
      intro h0
      exact hemp (List.isEmpty_iff.mpr (List.length_eq_zero.mp h0))
    by_cases hu : rowsUniform (ls.filterMap parseLine)
    · simp only [hemp, if_false, hu, if_true]
      refine ⟨by simp [hc], fun t ht => ?_, by simp⟩
      cases ht
      exact length_collected_rows ls
    · simp only [hemp, if_false, hu, if_false]
      refine ⟨by simp [hc], by simp, fun _ => ⟨by simpa using hu, hc⟩⟩

/-- A fixed file with one comment line, two fully-numeric lines and one line
with an unparseable token. -/
def goodLines : List Line :=
  [.comment, .data [.num 1], .data [.num 2], .data [.num 3, .bad]]

/-- Witness for C3: on `goodLines`, the returned table's row count (2) equals
the number of fully-numeric-parseable lines. -/
theorem c3_load_plumed_file_contract_witness :
    ([[1], [2]] : List (List ℚ)).length = countParseable goodLines :=
  (c3_load_plumed_file_contract goodLines).2.1 [[1], [2]]
    (by with_unfolding_all rfl)

/-- Counterexample for C3 as stated: a file whose two lines are both fully
numeric but of different widths (`1 2` and `1 2 3`). Two rows (> 0) are
collected, yet the loader raises (`np.array` rejects the ragged rows) instead
of returning a 2-row table, against the claim's "otherwise returns a table
whose row count equals ...". -/
theorem c3_load_plumed_file_counterexample :
    countParseable [Line.data [.num 1, .num 2], Line.data [.num 1, .num 2, .num 3]] = 2 ∧
    load_plumed_file [Line.data [.num 1, .num 2], Line.data [.num 1, .num 2, .num 3]] =
      .error .raggedArray := by
  exact ⟨by with_unfolding_all rfl, by with_unfolding_all rfl⟩

/-- C9: every table the loader returns is non-empty and rectangular — all its
rows have the column count of the first row. (Uniformity is enforced by
`np.array`, which raises on inhomogeneous rows, so a ragged file is never
"accepted".) -/
theorem c9_load_plumed_file_shape (ls : List Line) (t : List (List ℚ))
    (h : load_plumed_file ls = .ok t) :
    t ≠ [] ∧ ∀ r ∈ t, r.length = (t.headI).length := by
  unfold load_plumed_file at h
  by_cases hemp : (ls.filterMap parseLine).isEmpty
  · simp [hemp] at h
  · by_cases hu : rowsUniform (ls.filterMap parseLine)
    · simp only [hemp, if_false, hu, if_true] at h
      cases h
      refine ⟨fun h0 => hemp (by simp [h0]), fun r hr => ?_⟩
      unfold rowsUniform at hu
      exact of_decide_eq_true (List.all_eq_true.mp hu r hr)
    · simp [hemp, hu] at h

/-- Witness for C9 at `goodLines`: the returned table `[[1], [2]]` is
non-empty and rectangular. -/
theorem c9_load_plumed_file_shape_witness :
    ([[1], [2]] : List (List ℚ)) ≠ [] ∧
    ∀ r ∈ ([[1], [2]] : List (List ℚ)), r.length = (([[1], [2]] : List (List ℚ)).headI).length :=
  c9_load_plumed_file_shape goodLines [[1], [2]] (by with_unfolding_all rfl)

/-- Column `j` of a table, `table[:, j]` (out-of-range reads give the junk
value 0; claims restrict to well-formed shapes). -/
def columnVals (t : List (List ℚ)) (j : ℕ) : List ℚ :=
  t.map (fun r => r.getD j 0)

/-- Result of `analyze_hills_convergence`: gaussian count, first and last
deposited height, their ratio, and the final time. (The `time`/`heights`
arrays of the Python dict are recoverable as `columnVals`; the embedded
record keeps the scalar statistics the claims are about.) -/
structure HillsConv where
  n_gaussians : ℕ
  h_initial : ℚ
  h_final : ℚ
  h_ratio : ℚ
  total_time_ps : ℚ
deriving Repr, DecidableEq

/-- Embedding of `analyze_hills_convergence(hills_file)` (lines 112–159) on
the loaded table: `height_col = n_cols - 2` (Nat subtraction; the claims
assume at least 2 columns, where numpy's negative wrap-around cannot occur),
`h_ratio = h_final / h_initial if h_initial > 0 else 0`, and
`total_time_ps = time[-1]`. -/
def analyze_hills_convergence (hills : List (List ℚ)) : HillsConv :=
  let nCols := (hills.headI).length
  let time := columnVals hills 0
  let heights := columnVals hills (nCols - 2)
  let n := heights.length
  let hInit := if 0 < n then heights.headI else 0
  let hFin := if 0 < n then (heights.getLast?).getD 0 else 0
  let ratio := if 0 < hInit then hFin / hInit else 0
  ⟨n, hInit, hFin, ratio, if 0 < n then (time.getLast?).getD 0 else 0⟩

/-- Ratio as the claim words it: `final / initial`, "0 exactly when the
initial height is 0". -/
def claimRatio (hInit hFin : ℚ) : ℚ := if hInit = 0 then 0 else hFin / hInit

/-- Counterexample for C5 as stated: on the 3-column table
`[[0, -1, 9], [1, 2, 9]]` (height column = column 1 = `[-1, 2]`), the code's
guard `h_initial > 0` makes the ratio 0 although the initial height is
`-1 ≠ 0`, where the claim's rule ("0 exactly when the initial height is 0")
demands `2 / -1 = -2`. -/
theorem c5_hills_convergence_counterexample :
    (analyze_hills_convergence [[0, -1, 9], [1, 2, 9]]).h_initial = -1 ∧
    (analyze_hills_convergence [[0, -1, 9], [1, 2, 9]]).h_final = 2 ∧
    (analyze_hills_convergence [[0, -1, 9], [1, 2, 9]]).h_ratio = 0 ∧
    claimRatio (analyze_hills_convergence [[0, -1, 9], [1, 2, 9]]).h_initial
        (analyze_hills_convergence [[0, -1, 9], [1, 2, 9]]).h_final = -2 := by
  refine ⟨?_, ?_, ?_, ?_⟩ <;> with_unfolding_all decide

/-- C5 (amended): for every non-empty table whose rows all have `c ≥ 2`
columns, the analyzer returns gaussian count = number of rows, initial and
final height = first and last entries of column `c - 2`, final time = last
entry of column 0, and ratio = final/initial height — the ratio being 0
exactly when the initial height is NOT POSITIVE (the code guards on
`h_initial > 0`, not `h_initial != 0`). -/
theorem c5_hills_convergence (hills : List (List ℚ)) (c : ℕ)
    (hne : hills ≠ []) (hc2 : 2 ≤ c) (hcols : ∀ r ∈ hills, r.length = c) :
    (analyze_hills_convergence hills).n_gaussians = hills.length ∧
    (analyze_hills_convergence hills).h_initial = (columnVals hills (c - 2)).headI ∧
    (analyze_hills_convergence hills).h_final =
      ((columnVals hills (c - 2)).getLast?).getD 0 ∧
    (0 < (columnVals hills (c - 2)).headI →
      (analyze_hills_convergence hills).h_ratio =
        ((columnVals hills (c - 2)).getLast?).getD 0 /
          (columnVals hills (c - 2)).headI) ∧
    ((columnVals hills (c - 2)).headI ≤ 0 →
      (analyze_hills_convergence hills).h_ratio = 0) ∧
    (analyze_hills_convergence hills).total_time_ps =
      ((columnVals hills 0).getLast?).getD 0 := by
  obtain ⟨r0, rest, rfl⟩ : ∃ r0 rest, hills = r0 :: rest := by
    cases hills with
    | nil => exact absurd rfl hne
    | cons a l => exact ⟨a, l, rfl⟩
  have hr0 : ((r0 :: rest).headI).length = c :=
    hcols r0 (List.mem_cons_self r0 rest)
  have hpos : 0 < (columnVals (r0 :: rest) (c - 2)).length := by
    simp [columnVals]
  unfold analyze_hills_convergence
  simp only [hr0]
  refine ⟨?_, ?_, ?_, ?_, ?_, ?_⟩
  · simp [columnVals]
  · simp [hpos]
  · simp [hpos]
  · intro h
    simp only [hpos, if_pos]
    rw [if_pos h]
  · intro h
    simp only [hpos, if_pos]
    rw [if_neg (not_lt.mpr h)]
  · simp [hpos]

/-- Witness for C5 (amended) at a 2-row, 3-column table with decaying
heights `[1, 1/2]`. -/
theorem c5_hills_convergence_witness :
    (analyze_hills_convergence [[0, 1, 15], [2, 1/2, 15]]).n_gaussians =
      ([[0, 1, 15], [2, 1/2, 15]] : List (List ℚ)).length ∧
    (analyze_hills_convergence [[0, 1, 15], [2, 1/2, 15]]).h_initial =
      (columnVals [[0, 1, 15], [2, 1/2, 15]] (3 - 2)).headI ∧
    (analyze_hills_convergence [[0, 1, 15], [2, 1/2, 15]]).h_final =
      ((columnVals [[0, 1, 15], [2, 1/2, 15]] (3 - 2)).getLast?).getD 0 ∧
    (0 < (columnVals [[0, 1, 15], [2, 1/2, 15]] (3 - 2)).headI →
      (analyze_hills_convergence [[0, 1, 15], [2, 1/2, 15]]).h_ratio =
        ((columnVals [[0, 1, 15], [2, 1/2, 15]] (3 - 2)).getLast?).getD 0 /
          (columnVals [[0, 1, 15], [2, 1/2, 15]] (3 - 2)).headI) ∧
    ((columnVals [[0, 1, 15], [2, 1/2, 15]] (3 - 2)).headI ≤ 0 →
      (analyze_hills_convergence [[0, 1, 15], [2, 1/2, 15]]).h_ratio = 0) ∧
    (analyze_hills_convergence [[0, 1, 15], [2, 1/2, 15]]).total_time_ps =
      ((columnVals [[0, 1, 15], [2, 1/2, 15]] 0).getLast?).getD 0 :=
  c5_hills_convergence [[0, 1, 15], [2, 1/2, 15]] 3 (by decide) (by decide)
    (by with_unfolding_all decide)

/-- Detection half-width `window = max(3, len(fes_vals) // 50)`
(analyze_convergence.py, line 290). -/
def fesWindow (n : ℕ) : ℕ := max 3 (n / 50)

/-- Candidate local minima (lines 295–298, the pure-Python fallback branch of
the detector, which matches the spec's wording; the `scipy.signal.argrelmin`
branch differs only in using strict instead of non-strict comparison within
the window): indices `i ∈ [window, len - window)` whose value equals the
minimum over `fes[i-window : i+window+1]`. -/
def localMinIdx (fes : List ℚ) : List ℕ :=
  (List.range' (fesWindow fes.length)
      (fes.length - 2 * fesWindow fes.length)).filter
    (fun i => fes.getD i 0 =
      listMin ((fes.drop (i - fesWindow fes.length)).take
        (2 * fesWindow fes.length + 1)))

/-- The profile segment `fes_vals[a : b+1]` between an anchor and a candidate,
both inclusive. -/
def barrierSeg (fes : List ℚ) (a b : ℕ) : List ℚ :=
  (fes.drop a).take (b + 1 - a)

/-- One step of the candidate-filter loop (lines 305–308):
`barrier = np.max(fes_vals[filtered[-1] : idx+1]) - fes_vals[idx]`, and the
candidate is appended when `barrier >= threshold`. -/
def filterStep (fes : List ℚ) (thr : ℚ) (acc : List ℕ) (idx : ℕ) : List ℕ :=
  if thr ≤ listMax (barrierSeg fes (acc.getLastD 0) idx) - fes.getD idx 0 then
    acc ++ [idx]
  else acc

/-- The candidate filter of `find_fes_minima` (lines 303–308):
`filtered = [local_min_idx[0]]` then the left-to-right loop. -/
def filterMinima (fes : List ℚ) (thr : ℚ) : List ℕ → List ℕ
  | [] => []
  | c :: rest => rest.foldl (filterStep fes thr) [c]

/-- The filtering rule in the claim's own words (anchor-passing recursion):
retain a candidate iff the MAXIMUM energy between the previously retained
minimum and the candidate (inclusive) is ≥ the threshold — note: no
subtraction of the candidate's own energy. -/
def claimFilterFrom (fes : List ℚ) (thr : ℚ) : ℕ → List ℕ → List ℕ
  | _, [] => []
  | anchor, idx :: rest =>
    if thr ≤ listMax (barrierSeg fes anchor idx) then
      idx :: claimFilterFrom fes thr idx rest
    else claimFilterFrom fes thr anchor rest

/-- The claim's filter: first candidate always retained as initial anchor. -/
def claimFilter (fes : List ℚ) (thr : ℚ) : List ℕ → List ℕ
  | [] => []
  | c :: rest => c :: claimFilterFrom fes thr c rest

/-- The amended filtering rule (anchor-passing recursion): retain a candidate
iff the maximum energy between the previously retained minimum and the
candidate (inclusive) MINUS THE CANDIDATE'S OWN ENERGY is ≥ the threshold. -/
def specFilterFrom (fes : List ℚ) (thr : ℚ) : ℕ → List ℕ → List ℕ
  | _, [] => []
  | anchor, idx :: rest =>
    if thr ≤ listMax (barrierSeg fes anchor idx) - fes.getD idx 0 then
      idx :: specFilterFrom fes thr idx rest
    else specFilterFrom fes thr anchor rest

/-- The amended filter: first candidate always retained as initial anchor. -/
def specFilter (fes : List ℚ) (thr : ℚ) : List ℕ → List ℕ
  | [] => []
  | c :: rest => c :: specFilterFrom fes thr c rest

/-- Helper: the fold implementing the code's filter loop agrees with the
anchor-passing recursion, for any accumulated prefix whose last element is
the current anchor. -/
theorem foldl_filterStep_eq (fes : List ℚ) (thr : ℚ) (rest : List ℕ) :
    ∀ (pre : List ℕ) (anchor : ℕ), pre.getLastD 0 = anchor →
      rest.foldl (filterStep fes thr) pre =
        pre ++ specFilterFrom fes thr anchor rest := by
  induction rest with
  | nil => intro pre anchor _; simp [specFilterFrom]
  | cons idx rest ih =>
    intro pre anchor h
    simp only [List.foldl_cons, specFilterFrom]
    by_cases hb : thr ≤ listMax (barrierSeg fes anchor idx) - fes.getD idx 0
    · have hstep : filterStep fes thr pre idx = pre ++ [idx] := by
        unfold filterStep
        rw [h, if_pos hb]
      rw [hstep, ih (pre ++ [idx]) idx (List.getLastD_concat _ _ _), if_pos hb]
      simp
    · have hstep : filterStep fes thr pre idx = pre := by
        unfold filterStep
        rw [h, if_neg hb]
      rw [hstep, ih pre anchor h, if_neg hb]

/-- A renormalized double-well profile (minimum 0): wells at indices 3
(energy 0) and 7 (energy 40), separated by a peak of 50; monotone walls at
both ends. With threshold 25, the claim's rule (max between anchor and
candidate = 50 ≥ 25) retains both wells, but the code's rule
(50 − 40 = 10 < 25) drops the second. -/
def fesDoubleWell : List ℚ :=
  [60, 50, 20, 0, 45, 50, 46, 40, 45, 50, 60]

/-- Counterexample for C1 as stated: on `fesDoubleWell` (renormalized — its
minimum is 0) the detector's candidates are `[3, 7]` and with threshold 25
the code retains only `[3]`, while the claim's retained-iff-max-≥-threshold
rule yields `[3, 7]`. The claim's iff therefore fails at candidate 7. -/
theorem c1_filter_minima_counterexample :
    listMin fesDoubleWell = 0 ∧
    localMinIdx fesDoubleWell = [3, 7] ∧
    filterMinima fesDoubleWell 25 [3, 7] = [3] ∧
    claimFilter fesDoubleWell 25 [3, 7] = [3, 7] := by
  refine ⟨?_, ?_, ?_, ?_⟩ <;> with_unfolding_all decide

/-- C1 (amended): the code's left-to-right filter always retains the first
candidate, and retains each subsequent candidate iff the maximum energy
between the previously retained minimum and the candidate (inclusive) MINUS
the candidate's own (renormalized) energy is ≥ the threshold, the retained
candidate becoming the new anchor. -/
theorem c1_filter_minima_amended (fes : List ℚ) (thr : ℚ) (cands : List ℕ) :
    filterMinima fes thr cands = specFilter fes thr cands := by
  cases cands with
  | nil => rfl
  | cons c rest =>
    show rest.foldl (filterStep fes thr) [c] = c :: specFilterFrom fes thr c rest
    rw [foldl_filterStep_eq fes thr rest [c] c rfl]
    rfl

/-- Result structure of `find_fes_minima`: coordinates and normalized
energies of the retained minima, all pairwise signed ΔG (later minus
earlier), and the retained count. -/
structure FesMinima where
  cv : List ℚ
  energies : List ℚ
  deltaG_pairs : List (ℕ × ℕ × ℚ)
  n_minima : ℕ
deriving Repr, DecidableEq

/-- All pairwise signed differences (lines 313–317):
`(i, j, min_e[j] - min_e[i])` for `0 ≤ i < j < len`. -/
def pairDiffs (es : List ℚ) : List (ℕ × ℕ × ℚ) :=
  (List.range es.length).flatMap (fun i =>
    (List.range' (i + 1) (es.length - (i + 1))).map
      (fun j => (i, j, es.getD j 0 - es.getD i 0)))

/-- The renormalized energy profile (line 288):
`fes_vals = data[:, 1] - np.min(data[:, 1])`. -/
def renormFes (data : List (List ℚ)) : List ℚ :=
  (columnVals data 1).map (fun e => e - listMin (columnVals data 1))

/-- Embedding of `find_fes_minima(fes_file, energy_window_kj)` (lines
268–324) on the loaded profile table. A missing file, a load that collected
zero rows (`SystemExit`, caught at line 282), or a table with fewer than 2
columns all yield `none`; here the function takes the table itself, with the
empty table standing for the unreadable-input cases. Candidates come from
`localMinIdx` on the renormalized profile; no candidates yields `none`;
otherwise the filtered minima with their coordinates, normalized energies,
pairwise ΔG and count are returned. -/
def find_fes_minima (data : List (List ℚ)) (thr : ℚ) : Option FesMinima :=
  if data.length = 0 ∨ (data.headI).length < 2 then none
  else
    match localMinIdx (renormFes data) with
    | [] => none
    | c :: rest =>
      some ⟨(filterMinima (renormFes data) thr (c :: rest)).map
              (fun i => (columnVals data 0).getD i 0),
            (filterMinima (renormFes data) thr (c :: rest)).map
              (fun i => (renormFes data).getD i 0),
            pairDiffs ((filterMinima (renormFes data) thr (c :: rest)).map
              (fun i => (renormFes data).getD i 0)),
            (filterMinima (renormFes data) thr (c :: rest)).length⟩

/-- A parabola-shaped profile: coordinates 0..10, energies `(x - 5)^2`. Its
vertex (index 5) is an interior local minimum, so the detector does NOT
report the unimodal/empty result on it. -/
def parabolaFes : List (List ℚ) :=
  [[0, 25], [1, 16], [2, 9], [3, 4], [4, 1], [5, 0],
   [6, 1], [7, 4], [8, 9], [9, 16], [10, 25]]

/-- Counterexample for C7 as stated: on the parabola profile (a single clear
global minimum, no other local minima) the detector does not report the
empty/unimodal result — it finds the vertex as a candidate and returns a
structure with exactly one minimum. -/
theorem c7_unimodal_counterexample :
    find_fes_minima parabolaFes (5/2) ≠ none ∧
    (find_fes_minima parabolaFes (5/2)).map FesMinima.n_minima = some 1 := by
  refine ⟨?_, ?_⟩ <;> with_unfolding_all decide

/-- C7 (amended): with at least 2 columns and a non-empty table, the detector
reports the empty/unimodal result (`none`) exactly when NO candidate index
survives the window test; a profile whose candidate list is the single index
`i` (e.g. a parabola with interior vertex) instead yields a one-minimum
structure — the vertex's coordinate and normalized energy, no pairwise ΔG. -/
theorem c7_unimodal_amended (data : List (List ℚ)) (thr : ℚ)
    (hne : data ≠ []) (hc : 2 ≤ (data.headI).length) :
    (localMinIdx (renormFes data) = [] → find_fes_minima data thr = none) ∧
    (∀ i, localMinIdx (renormFes data) = [i] →
      find_fes_minima data thr =
        some ⟨[(columnVals data 0).getD i 0], [(renormFes data).getD i 0], [], 1⟩) := by
  have hg : ¬(data.length = 0 ∨ (data.headI).length < 2) := by
    push_neg
    exact ⟨by simpa using hne, hc⟩
  constructor
  · intro h
    unfold find_fes_minima
    rw [if_neg hg, h]
  · intro i h
    unfold find_fes_minima
    rw [if_neg hg, h]
    have hfilt : filterMinima (renormFes data) thr [i] = [i] := rfl
    simp only [hfilt, List.map_cons, List.map_nil, List.length_cons, List.length_nil]
    simp [pairDiffs]

/-- Witness for C7 (amended) at the parabola: the single candidate is the
vertex index 5, and the returned structure is exactly
`⟨[5], [0], [], 1⟩`. -/
theorem c7_unimodal_amended_witness :
    find_fes_minima parabolaFes (5/2) =
      some ⟨[(columnVals parabolaFes 0).getD 5 0],
            [(renormFes parabolaFes).getD 5 0], [], 1⟩ :=
  (c7_unimodal_amended parabolaFes (5/2) (by decide)
      (by decide)).2 5 (by with_unfolding_all decide)

/-- Abstract lines of the ΔG block of the convergence report: the
final-block ΔG line, the variation line (carrying the square of the printed
`np.std` value), and the stable / unstable verdict lines. -/
inductive RLine where
  | lastDeltaG (v : ℚ)
  | variationSq (v : ℚ)
  | verdictStable
  | verdictUnstable
deriving Repr, DecidableEq

/-- Embedding of the ΔG block of `save_convergence_report` (lines 363–372):
nothing when the span list is empty; otherwise the last-span line, and — only
when `len(deltaG) > 3` — the variation over the last 3 spans
(`np.std(last_3)`, held squared) followed by the stable verdict iff
`np.std(last_3) < 2.0`, i.e. `popVar last_3 < 4`. -/
def deltaGReportSection (dg : List ℚ) : List RLine :=
  if dg = [] then []
  else
    RLine.lastDeltaG ((dg.getLast?).getD 0) ::
      (if 3 < dg.length then
        RLine.variationSq (popVar (dg.drop (dg.length - 3))) ::
          (if popVar (dg.drop (dg.length - 3)) < 4 then [RLine.verdictStable]
           else [RLine.verdictUnstable])
      else [])

/-- Counterexample for C8 as stated: for the non-empty span sequence
`[1, 2, 3]` (length 3, not > 3) the report contains NO stability verdict at
all, although the claim promises one for every non-empty sequence. -/
theorem c8_stability_counterexample :
    ([1, 2, 3] : List ℚ) ≠ [] ∧
    RLine.verdictStable ∉ deltaGReportSection [1, 2, 3] ∧
    RLine.verdictUnstable ∉ deltaGReportSection [1, 2, 3] := by
  refine ⟨?_, ?_, ?_⟩ <;> with_unfolding_all decide

/-- C8 (amended): for every span sequence with MORE THAN 3 entries, the
report contains the trailing-window stability verdict, marked stable iff the
standard deviation of the last 3 spans is < 2 kJ/mol (equivalently, the
squared deviation `popVar` is < 4), and unstable otherwise; sequences of 3
or fewer spans receive no verdict. -/
theorem c8_stability_verdict (dg : List ℚ) (h : 3 < dg.length) :
    (RLine.verdictStable ∈ deltaGReportSection dg ↔
      popVar (dg.drop (dg.length - 3)) < 4) ∧
    (RLine.verdictUnstable ∈ deltaGReportSection dg ↔
      ¬ popVar (dg.drop (dg.length - 3)) < 4) := by
  have hne : ¬ dg = [] := by
    intro h0
    rw [h0] at h
    simp at h
  unfold deltaGReportSection
  rw [if_neg hne, if_pos h]
  by_cases hv : popVar (dg.drop (dg.length - 3)) < 4
  · rw [if_pos hv]
    simp [hv]
  · rw [if_neg hv]
    simp [hv]

/-- Witness for C8 at the 4-span sequence `[0, 0, 0, 0]`: the stable verdict
is present (std of the last 3 spans is 0 < 2). -/
theorem c8_stability_verdict_witness :
    RLine.verdictStable ∈ deltaGReportSection [0, 0, 0, 0] :=
  ((c8_stability_verdict [0, 0, 0, 0] (by decide)).1).mpr
    (by with_unfolding_all decide)

/-- Behaviour of lines 217–225 on the output file of a successful
`sum_hills` call: re-load the written FES and compute
`ΔG = np.max(fes[:, -1]) - np.min(fes[:, -1])`. `Except.error ()` models the
uncaught `SystemExit`: when the output parses to zero rows,
`load_plumed_file` calls `sys.exit(1)`, a `BaseException` that
`except Exception: pass` does NOT catch, so it escapes the whole analysis. A
ragged table (`ValueError` from `np.array`) or a zero-column table
(`IndexError` from `fes[:, -1]`) IS an `Exception`, is caught, and merely
skips the window (`.ok none`). -/
def windowFes (lines : List Line) : Except Unit (Option ℚ) :=
  match load_plumed_file lines with
  | .error .missingData => .error ()
  | .error .raggedArray => .ok none
  | .ok rows =>
    if (rows.headI).length = 0 then .ok none
    else .ok (some (listMax (rows.map (fun r => (r.getLast?).getD 0)) -
                    listMin (rows.map (fun r => (r.getLast?).getD 0))))

/-- Numpy's `np.linspace(a, b, n)`: `n` evenly spaced points from `a` to `b`
inclusive (`[a]` when `n = 1`, `[]` when `n = 0`). -/
def linspace (a b : ℚ) (n : ℕ) : List ℚ :=
  if n = 1 then [a]
  else (List.range n).map (fun i => a + i * (b - a) / ((n : ℚ) - 1))

/-- The per-window loop of `compute_deltaG_vs_time` (lines 191–230). For
each time bound: filter the bias records to `time ≤ t` (skip the bound when
none match), invoke the external reconstruction (`recon t = none` models a
non-zero exit status or a missing output file — the bound is skipped), and
otherwise evaluate the written output via `windowFes`; a `SystemExit` there
aborts everything, a caught exception skips the bound, and a computed span
is appended in order. -/
def dgLoop (hills : List (List ℚ)) (recon : ℚ → Option (List Line)) :
    List ℚ → Except Unit (List (ℚ × ℚ))
  | [] => .ok []
  | t :: rest =>
    if hills.filter (fun r => r.headI ≤ t) = [] then dgLoop hills recon rest
    else
      match recon t with
      | none => dgLoop hills recon rest
      | some lines =>
        match windowFes lines with
        | .error e => .error e
        | .ok none => dgLoop hills recon rest
        | .ok (some dg) =>
          match dgLoop hills recon rest with
          | .error e => .error e
          | .ok tail => .ok ((t, dg) :: tail)

/-- Embedding of `compute_deltaG_vs_time(colvar_file, hills_file, args,
n_blocks)` (lines 162–235): the window bounds are
`np.linspace(total_time / n_blocks, total_time, n_blocks)` with
`total_time = colvar[:, 0][-1]`, and each bound is processed by `dgLoop`.
The external `plumed sum_hills` collaborator is the oracle `recon`, mapping
a bound to the lines of its written output file (or `none` for a failed
invocation). -/
def compute_deltaG_vs_time (colvar hills : List (List ℚ))
    (recon : ℚ → Option (List Line)) (nBlocks : ℕ) :
    Except Unit (List (ℚ × ℚ)) :=
  dgLoop hills recon
    (linspace (((columnVals colvar 0).getLast?).getD 0 / nBlocks)
      (((columnVals colvar 0).getLast?).getD 0) nBlocks)

/-- A reconstruction oracle whose window at `t = 5` "fails" in the
empty-output way: the process exits 0 but the written file holds only a
comment line (zero data rows); the other window yields a good one-row
profile. -/
def reconAbort (t : ℚ) : Option (List Line) :=
  if t = 5 then some [Line.comment]
  else some [Line.data [Token.num 1, Token.num 3]]

/-- The same oracle but with the `t = 5` window failing by non-zero exit
status / missing output file instead. -/
def reconSkip (t : ℚ) : Option (List Line) :=
  if t = 5 then none
  else some [Line.data [Token.num 1, Token.num 3]]

/-- C2 (code bug, demonstrated): over COLVAR `[[10]]` (total time 10),
HILLS `[[1, 9], [7, 9]]` and 2 windows (bounds 5 and 10): when the first
window's reconstruction exits 0 but writes a zero-row output, the
`sys.exit(1)` inside `load_plumed_file` escapes the `except Exception`
handler and the WHOLE analysis aborts (`Except.error ()`) — the second,
healthy window is never processed and no pairs are returned, contradicting
the claim (and spec §4.3/§7, which demand the failed window be skipped).
When the same window instead fails by exit status, the code does skip it and
returns the succeeding bound's pair, as the claim describes. -/
theorem c2_deltaG_tracker_window_failure :
    compute_deltaG_vs_time [[10]] [[1, 9], [7, 9]] reconAbort 2 =
      .error () ∧
    compute_deltaG_vs_time [[10]] [[1, 9], [7, 9]] reconSkip 2 =
      .ok [(10, 0)] :=
  ⟨by with_unfolding_all rfl, by with_unfolding_all rfl⟩

end MetadAnalysis
